import Mathlib

/-!
Verification development for the emotion-explorer repository.

Shallow embedding of the core components:
- `internal/core/hierarchy.go` (GetPrimaryEmotions, GetChildrenOf),
- `internal/journal/storage.go` + the `LogEntry` model (journal persistence),
- the navigation state machine of `cmd/emotion-explorer/main.go`
  (pushView, popView, handleBack, handleLogEmotionSelection,
  switchToLoggingMode, switchToBrowsingMode).

Modelling conventions:
- A Go `map[string]data.Emotion` is embedded as a `List Emotion`; the list
  order stands for the (unspecified) map iteration order.  `sort.Slice`
  with the comparison `a.Name < b.Name` is embedded as
  `List.insertionSort` under the reflexive order `a.name ≤ b.name`
  (Lean's `String` order is lexicographic on code points, which agrees
  with Go's bytewise comparison of UTF-8 strings); ties between equal
  names are left in an unspecified relative order by the source, so any
  comparison sort is a faithful embedding.
- `time.Time` timestamps are embedded as `Int` instants; the JSON form of
  a timestamp is embedded as a JSON number (the source stores an
  RFC-3339 string; only injectivity of the encoding matters here).
- `encoding/json` (Go standard library, an external collaborator of the
  repository code) is embedded as a structural encoder/decoder on an
  inductive `Json` document type, mirroring its contract: field lookup by
  key, zero values for absent fields, `omitempty` on `notes`, failure on
  mismatched shapes, and `null` unmarshalling into a nil slice.
- The journal file is a `FileContent`: missing, empty, unparseable bytes
  (`garbage`), or a parsed JSON document.  In-memory reads always
  succeed; a write may fail, which is driven by an explicit `writeOk`
  oracle argument replacing the `os.WriteFile` error path.
- Fyne view objects (`fyne.CanvasObject`) carry exactly the data that
  `createEmotionListView(title, parent, emotions, onSelect)` was given,
  so they are embedded as a `Frame` record of that data (the `onSelect`
  callback is the global handler in every call site and is dropped).
-/

namespace EmotionExplorer

/-- `data.Emotion` from `internal/data/models.go`. -/
structure Emotion where
  id : String
  name : String
  type : String
  color : String
  parentID : String
deriving DecidableEq, Repr

/-- The comparison used by both sorts in `internal/core/hierarchy.go`:
`sort.Slice(xs, func(i, j int) bool { return xs[i].Name < xs[j].Name })`. -/
def emotionLe (a b : Emotion) : Prop :=
  a.name ≤ b.name

instance : DecidableRel emotionLe := fun a b =>
  inferInstanceAs (Decidable (a.name ≤ b.name))

instance : IsTotal Emotion emotionLe :=
  ⟨fun a b => le_total a.name b.name⟩

instance : IsTrans Emotion emotionLe :=
  ⟨fun _ _ _ hab hbc => le_trans hab hbc⟩

/-- `core.GetPrimaryEmotions` from `internal/core/hierarchy.go`: filters the
emotion set down to the emotions whose `Type` is `"primary"` and sorts them
by name; a nil or empty map short-circuits to an empty slice. -/
def GetPrimaryEmotions (emotions : List Emotion) : List Emotion :=
  if emotions.length = 0 then
    []
  else
    List.insertionSort emotionLe (emotions.filter fun e => e.type == "primary")

/-- `core.GetChildrenOf` from `internal/core/hierarchy.go`: filters the
emotion set down to the emotions whose `ParentID` equals `parentID` and
sorts them by name; a nil or empty map short-circuits to an empty slice. -/
def GetChildrenOf (parentID : String) (allEmotions : List Emotion) : List Emotion :=
  if allEmotions.length = 0 then
    []
  else
    List.insertionSort emotionLe (allEmotions.filter fun e => e.parentID == parentID)

theorem getPrimaryEmotions_eq_sort (emotions : List Emotion) :
    GetPrimaryEmotions emotions =
      List.insertionSort emotionLe (emotions.filter fun e => e.type == "primary") := by
  cases emotions with
  | nil => rfl
  | cons a l => rfl

theorem getChildrenOf_eq_sort (parentID : String) (allEmotions : List Emotion) :
    GetChildrenOf parentID allEmotions =
      List.insertionSort emotionLe (allEmotions.filter fun e => e.parentID == parentID) := by
  cases allEmotions with
  | nil => rfl
  | cons a l => rfl

/-- Concrete emotions used to evaluate the definitions (taken from the
repository's own test data in `internal/core/hierarchy_test.go`). -/
def eJoy : Emotion := ⟨"joy", "Joy", "primary", "#FFD700", ""⟩

def eSadness : Emotion := ⟨"sadness", "Sadness", "primary", "#ADD8E6", ""⟩

def eAnger : Emotion := ⟨"anger", "Anger", "primary", "#FF0000", ""⟩

def eContentment : Emotion := ⟨"contentment", "Contentment", "secondary", "#FFFFE0", "joy"⟩

def eGrief : Emotion := ⟨"grief", "Grief", "secondary", "#A9A9A9", "sadness"⟩

def eRage : Emotion := ⟨"rage", "Rage", "tertiary", "#DC143C", "anger"⟩

/-- C5: `GetPrimaryEmotions` returns exactly the emotions whose type is
`"primary"` (as a multiset: a permutation of the filter of the input),
sorted ascending by name under the total lexicographic string order, and
the empty set yields the empty sequence.  The function is total, so it
never errors and never returns a null result. -/
theorem c5_primaryEmotions_filter_sorted :
    (∀ emotions : List Emotion,
      List.Perm (GetPrimaryEmotions emotions)
        (emotions.filter fun e => e.type == "primary"))
    ∧ (∀ emotions : List Emotion,
        List.Sorted emotionLe (GetPrimaryEmotions emotions))
    ∧ GetPrimaryEmotions [] = [] := by
  refine ⟨fun emotions => ?_, fun emotions => ?_, rfl⟩
  · rw [getPrimaryEmotions_eq_sort]
    exact List.perm_insertionSort emotionLe _
  · rw [getPrimaryEmotions_eq_sort]
    exact List.sorted_insertionSort emotionLe _

/-- C6: `GetChildrenOf id set` returns exactly the emotions whose
`parentID` equals `id` (a permutation of the filter of the input), sorted
ascending by name, and every returned emotion is a direct child — its
`parentID` is literally `id`, so grandchildren (whose `parentID` is some
child's id, not `id`) are never included. -/
theorem c6_childrenOf_exact_direct_sorted :
    (∀ (pid : String) (emotions : List Emotion),
      List.Perm (GetChildrenOf pid emotions)
        (emotions.filter fun e => e.parentID == pid))
    ∧ (∀ (pid : String) (emotions : List Emotion),
        List.Sorted emotionLe (GetChildrenOf pid emotions))
    ∧ (∀ (pid : String) (emotions : List Emotion),
        ∀ e ∈ GetChildrenOf pid emotions, e.parentID = pid) := by
  refine ⟨fun pid emotions => ?_, fun pid emotions => ?_, fun pid emotions e he => ?_⟩
  · rw [getChildrenOf_eq_sort]
    exact List.perm_insertionSort emotionLe _
  · rw [getChildrenOf_eq_sort]
    exact List.sorted_insertionSort emotionLe _
  · rw [getChildrenOf_eq_sort] at he
    have hmem : e ∈ emotions.filter fun x => x.parentID == pid :=
      (List.mem_insertionSort emotionLe).mp he
    have h := List.of_mem_filter hmem
    exact eq_of_beq h

/-- Witness for C6: evaluating the direct-child conjunct at the concrete
test data. -/
theorem c6_childrenOf_exact_direct_sorted_witness :
    eContentment.parentID = "joy" :=
  c6_childrenOf_exact_direct_sorted.2.2 "joy" [eJoy, eContentment] eContentment
    (by decide)

/-- C4 fails on the code: `GetChildrenOf` matches on the `ParentID` field
only, so a `parentID` that is not the id of any emotion in the set can
still select emotions.  Concretely, the empty string is not the id of the
single emotion in the set `[eJoy]`, yet `GetChildrenOf "" [eJoy]` returns
`[eJoy]` (root emotions carry an empty `ParentID`), not the empty
sequence. -/
theorem c4_unknown_parent_counterexample :
    eJoy.id ≠ "" ∧ GetChildrenOf "" [eJoy] = [eJoy] := by
  exact ⟨by decide, by decide⟩

/-- C4 (amended): in a set satisfying the data-model invariant — every
non-empty `parentID` resolves to the id of an emotion in the set — a
non-empty `parentID` that is not the id of any emotion in the set yields
the empty sequence (and the function is total, so it never errors). -/
theorem c4_unknown_parent_amended
    (emotions : List Emotion) (pid : String)
    (hwf : ∀ e ∈ emotions, e.parentID = "" ∨ ∃ p ∈ emotions, p.id = e.parentID)
    (hpid : pid ≠ "")
    (hunknown : ∀ e ∈ emotions, e.id ≠ pid) :
    GetChildrenOf pid emotions = [] := by
  rw [getChildrenOf_eq_sort]
  have hfil : (emotions.filter fun e => e.parentID == pid) = [] := by
    rw [List.filter_eq_nil_iff]
    intro e he hbeq
    have heq : e.parentID = pid := eq_of_beq hbeq
    rcases hwf e he with hroot | ⟨p, hp, hpe⟩
    · exact hpid (heq ▸ hroot)
    · exact hunknown p hp (hpe.trans heq)
  rw [hfil]
  rfl

/-- Witness for the amended C4: `"ghost"` is a non-empty id referenced by
no emotion in a well-formed two-element set, and its children come back
empty. -/
theorem c4_unknown_parent_amended_witness :
    GetChildrenOf "ghost" [eJoy, eContentment] = [] :=
  c4_unknown_parent_amended [eJoy, eContentment] "ghost"
    (by decide) (by decide) (by decide)

/-! ### Journal persistence (`internal/journal/storage.go`, `LogEntry` model) -/

/-- `journal.LogEntry`: timestamp (an instant, embedded as `Int`),
emotion id, denormalized emotion name, and an optional note
(`omitempty`). -/
structure LogEntry where
  timestamp : Int
  emotionID : String
  emotionName : String
  notes : String
deriving DecidableEq, Repr

/-- A JSON document, the embedding of the byte content that
`encoding/json` produces and consumes. -/
inductive Json where
  | null
  | bool (b : Bool)
  | num (n : Int)
  | str (s : String)
  | arr (elems : List Json)
  | obj (fields : List (String × Json))
deriving Repr

/-- First value bound to a key in a JSON object, the embedding of
`encoding/json` field lookup. -/
def jsonLookup (fields : List (String × Json)) (key : String) : Option Json :=
  match fields with
  | [] => none
  | (k, v) :: rest => if k = key then some v else jsonLookup rest key

/-- Unmarshalling a string-typed struct field: an absent key leaves the
zero value `""`, a JSON string is taken as-is, any other shape is an
unmarshal error. -/
def decodeStringField (fields : List (String × Json)) (key : String) : Option String :=
  match jsonLookup fields key with
  | none => some ""
  | some (Json.str s) => some s
  | some _ => none

/-- Unmarshalling the timestamp field: an absent key leaves the zero
instant, a JSON number is taken as-is, any other shape is an unmarshal
error. -/
def decodeIntField (fields : List (String × Json)) (key : String) : Option Int :=
  match jsonLookup fields key with
  | none => some 0
  | some (Json.num n) => some n
  | some _ => none

/-- `json.Marshal` of one `LogEntry`: the three mandatory fields plus
`notes` only when non-empty (`omitempty`). -/
def encodeEntry (e : LogEntry) : Json :=
  Json.obj (("timestamp", Json.num e.timestamp)
    :: ("emotion_id", Json.str e.emotionID)
    :: ("emotion_name", Json.str e.emotionName)
    :: (if e.notes = "" then [] else [("notes", Json.str e.notes)]))

/-- `json.Unmarshal` of one `LogEntry` from a JSON value. -/
def decodeEntry (j : Json) : Option LogEntry :=
  match j with
  | Json.obj fields => do
      let ts ← decodeIntField fields "timestamp"
      let eid ← decodeStringField fields "emotion_id"
      let ename ← decodeStringField fields "emotion_name"
      let note ← decodeStringField fields "notes"
      some ⟨ts, eid, ename, note⟩
  | _ => none

/-- `json.MarshalIndent` of a `[]LogEntry` (the indentation is
presentation only and not part of the document structure). -/
def encodeEntries (es : List LogEntry) : Json :=
  Json.arr (es.map encodeEntry)

/-- `json.Unmarshal` of a `[]LogEntry`: a JSON array is decoded
element-wise, the document `null` unmarshals into a nil slice without
error, anything else is an unmarshal error. -/
def decodeEntries (j : Json) : Option (List LogEntry) :=
  match j with
  | Json.null => some []
  | Json.arr xs => xs.mapM decodeEntry
  | _ => none

/-- The journal file's state: absent, existing but zero bytes, existing
with bytes that are not a JSON document, or a JSON document. -/
inductive FileContent where
  | missing
  | empty
  | garbage
  | json (j : Json)

/-- The failure modes of the store that the model distinguishes:
unreadable content on load, and a failed disk write on save. -/
inductive JournalError where
  | corrupt
  | writeFailed
deriving DecidableEq, Repr

/-- `journal.loadJournalEntries`: a missing or empty file is zero
entries, not an error; content that fails to unmarshal is returned as an
error (the code wraps and returns the `json.Unmarshal` error). -/
def loadJournalEntries (file : FileContent) : Except JournalError (List LogEntry) :=
  match file with
  | FileContent.missing => Except.ok []
  | FileContent.empty => Except.ok []
  | FileContent.garbage => Except.error JournalError.corrupt
  | FileContent.json j =>
    match decodeEntries j with
    | some entries => Except.ok entries
    | none => Except.error JournalError.corrupt

/-- `journal.GetJournalEntries`, the public LoadAll. -/
def GetJournalEntries (file : FileContent) : Except JournalError (List LogEntry) :=
  loadJournalEntries file

/-- The read phase of `journal.SaveLogEntry`: a missing or empty file and
content that fails to unmarshal all start the save from zero entries
(`entries = []LogEntry{}` on the corrupt branch). -/
def readEntriesForSave (file : FileContent) : List LogEntry :=
  match file with
  | FileContent.missing => []
  | FileContent.empty => []
  | FileContent.garbage => []
  | FileContent.json j => (decodeEntries j).getD []

/-- `journal.SaveLogEntry` (Append): read existing entries, append the
new entry in memory, marshal, and overwrite the file.  The whole cycle
runs under `journalMutex`; here it is one atomic function, and the
interleaved version for the concurrency claim is built from its phases
below.  `writeOk` is the oracle for the `os.WriteFile` error path: on a
failed write the error is returned and the file is unchanged. -/
def SaveLogEntry (newEntry : LogEntry) (writeOk : Bool) (file : FileContent) :
    FileContent × Except JournalError Unit :=
  let entries := readEntriesForSave file
  let updated := entries ++ [newEntry]
  if writeOk then
    (FileContent.json (encodeEntries updated), Except.ok ())
  else
    (file, Except.error JournalError.writeFailed)

theorem decodeEntry_encodeEntry (e : LogEntry) : decodeEntry (encodeEntry e) = some e := by
  by_cases h : e.notes = ""
  · simp [encodeEntry, decodeEntry, decodeIntField, decodeStringField, jsonLookup, h]
    rw [← h]
  · simp [encodeEntry, decodeEntry, decodeIntField, decodeStringField, jsonLookup, h]

theorem decodeEntries_encodeEntries (es : List LogEntry) :
    decodeEntries (encodeEntries es) = some es := by
  induction es with
  | nil => rfl
  | cons e rest ih =>
    simp only [encodeEntries, decodeEntries, List.map_cons, List.mapM_cons]
    simp only [encodeEntries, decodeEntries] at ih
    rw [decodeEntry_encodeEntry, ih]
    rfl

theorem readEntriesForSave_encode (es : List LogEntry) :
    readEntriesForSave (FileContent.json (encodeEntries es)) = es := by
  simp [readEntriesForSave, decodeEntries_encodeEntries]

/-- Folding successful Appends over the journal file. -/
def appendAll (es : List LogEntry) (file : FileContent) : FileContent :=
  es.foldl (fun f e => (SaveLogEntry e true f).1) file

theorem appendAll_json (es acc : List LogEntry) :
    appendAll es (FileContent.json (encodeEntries acc)) =
      FileContent.json (encodeEntries (acc ++ es)) := by
  induction es generalizing acc with
  | nil => simp [appendAll]
  | cons e rest ih =>
    simp only [appendAll, List.foldl_cons]
    have hstep : (SaveLogEntry e true (FileContent.json (encodeEntries acc))).1 =
        FileContent.json (encodeEntries (acc ++ [e])) := by
      simp [SaveLogEntry, readEntriesForSave_encode]
    rw [hstep]
    simpa [appendAll] using ih (acc ++ [e])

/-- Content that `loadJournalEntries` reports as corrupt is exactly the
content that the save path restarts from zero entries. -/
theorem corrupt_readEntriesForSave (file : FileContent)
    (hcorrupt : loadJournalEntries file = Except.error JournalError.corrupt) :
    readEntriesForSave file = [] := by
  cases file with
  | missing => rfl
  | empty => rfl
  | garbage => rfl
  | json j =>
    cases hdec : decodeEntries j with
    | none => simp [readEntriesForSave, hdec]
    | some l => simp [loadJournalEntries, hdec] at hcorrupt

/-- Sample entries used to evaluate the journal model on concrete
inputs. -/
def sampleEntry1 : LogEntry := ⟨100, "joy", "Joy", ""⟩

def sampleEntry2 : LogEntry := ⟨200, "grief", "Grief", "after lunch"⟩

/-- C3: starting from a missing or empty journal file, any sequence of
successful Appends followed by LoadAll returns exactly the appended
entries in append order; every successful Append reports success to its
caller; and serialization round-trips every entry list unchanged. -/
theorem c3_append_then_loadAll_returns_appended :
    (∀ (es : List LogEntry) (file0 : FileContent),
        file0 = FileContent.missing ∨ file0 = FileContent.empty →
        loadJournalEntries (appendAll es file0) = Except.ok es)
    ∧ (∀ (e : LogEntry) (f : FileContent), (SaveLogEntry e true f).2 = Except.ok ())
    ∧ (∀ es : List LogEntry, decodeEntries (encodeEntries es) = some es) := by
  refine ⟨fun es file0 h0 => ?_, fun e f => by simp [SaveLogEntry], decodeEntries_encodeEntries⟩
  cases es with
  | nil => rcases h0 with h | h <;> subst h <;> rfl
  | cons e rest =>
    have hstep : (SaveLogEntry e true file0).1 = FileContent.json (encodeEntries [e]) := by
      rcases h0 with h | h <;> subst h <;> rfl
    have hcons : appendAll (e :: rest) file0 =
        appendAll rest ((SaveLogEntry e true file0).1) := rfl
    rw [hcons, hstep, appendAll_json]
    simp [loadJournalEntries, decodeEntries_encodeEntries]

/-- Witness for C3: two concrete Appends on a missing file load back as
exactly those two entries in order. -/
theorem c3_append_then_loadAll_returns_appended_witness :
    loadJournalEntries (appendAll [sampleEntry1, sampleEntry2] FileContent.missing) =
      Except.ok [sampleEntry1, sampleEntry2] :=
  c3_append_then_loadAll_returns_appended.1 [sampleEntry1, sampleEntry2]
    FileContent.missing (Or.inl rfl)

/-- C9: on a journal file whose content fails to load (malformed bytes),
Append succeeds, discarding the corrupted content and proceeding from
zero entries, and LoadAll afterwards returns exactly the newly appended
entry. -/
theorem c9_append_recovers_corrupt_file
    (e : LogEntry) (file : FileContent)
    (hcorrupt : loadJournalEntries file = Except.error JournalError.corrupt) :
    (SaveLogEntry e true file).2 = Except.ok ()
    ∧ loadJournalEntries (SaveLogEntry e true file).1 = Except.ok [e] := by
  have hread := corrupt_readEntriesForSave file hcorrupt
  have h1 : (SaveLogEntry e true file).1 = FileContent.json (encodeEntries [e]) := by
    simp [SaveLogEntry, hread]
  refine ⟨by simp [SaveLogEntry], ?_⟩
  rw [h1]
  simp [loadJournalEntries, decodeEntries_encodeEntries]

/-- Witness for C9: appending to a file of unparseable bytes succeeds and
loads back as exactly the one new entry. -/
theorem c9_append_recovers_corrupt_file_witness :
    (SaveLogEntry sampleEntry1 true FileContent.garbage).2 = Except.ok ()
    ∧ loadJournalEntries (SaveLogEntry sampleEntry1 true FileContent.garbage).1 =
        Except.ok [sampleEntry1] :=
  c9_append_recovers_corrupt_file sampleEntry1 FileContent.garbage rfl

/-- C10 fails on the code for reads: `GetJournalEntries` (LoadAll, via
`loadJournalEntries`) returns the wrapped `json.Unmarshal` error on
malformed content instead of silently recovering, so corruption *is* an
exception path for the store's read operation. -/
theorem c10_read_surfaces_corruption_counterexample :
    GetJournalEntries FileContent.garbage = Except.error JournalError.corrupt := rfl

/-- C10 (amended): malformed journal content is silently recovered by the
store's save path — `SaveLogEntry` treats it as zero entries and the next
successful save overwrites it — but the store's read path
(`GetJournalEntries`) surfaces corruption as an error. -/
theorem c10_save_recovers_read_surfaces
    (e : LogEntry) (file : FileContent)
    (hcorrupt : loadJournalEntries file = Except.error JournalError.corrupt) :
    readEntriesForSave file = []
    ∧ (SaveLogEntry e true file).1 = FileContent.json (encodeEntries [e])
    ∧ GetJournalEntries FileContent.garbage = Except.error JournalError.corrupt := by
  have hread := corrupt_readEntriesForSave file hcorrupt
  exact ⟨hread, by simp [SaveLogEntry, hread], rfl⟩

/-- Witness for the amended C10 at a concrete corrupted file. -/
theorem c10_save_recovers_read_surfaces_witness :
    readEntriesForSave FileContent.garbage = []
    ∧ (SaveLogEntry sampleEntry2 true FileContent.garbage).1 =
        FileContent.json (encodeEntries [sampleEntry2])
    ∧ GetJournalEntries FileContent.garbage = Except.error JournalError.corrupt :=
  c10_save_recovers_read_surfaces sampleEntry2 FileContent.garbage rfl

/-! ### Navigation state machine (`cmd/emotion-explorer/main.go`) -/

/-- `AppMode` from `main.go`: `ModeBrowsing` (the `iota` default) and
`ModeLogging`. -/
inductive AppMode where
  | browsing
  | logging
deriving DecidableEq, Repr

/-- The data a view created by `createEmotionListView(title, parent,
emotions, onSelect)` carries; the `onSelect` callback is the global
`handleEmotionSelected` at every call site and is dropped. -/
structure Frame where
  title : String
  parent : Option Emotion
  items : List Emotion
deriving DecidableEq, Repr

/-- The mutable globals of `main.go` that the navigation logic touches:
`currentMode`, `navigationStack` (Browsing), `loggingNavigationStack`,
and the journal file the store reads and writes. -/
structure AppState where
  currentMode : AppMode
  navigationStack : List Frame
  loggingNavigationStack : List Frame
  journalFile : FileContent

/-- `createEmotionListView`: builds the view value for a titled emotion
list. -/
def createEmotionListView (title : String) (parent : Option Emotion)
    (emotions : List Emotion) : Frame :=
  ⟨title, parent, emotions⟩

/-- `pushView`: `*stack = append(*stack, view)`. -/
def pushView (view : Frame) (stack : List Frame) : List Frame :=
  stack ++ [view]

/-- `popView`: refuses to pop a stack of one or fewer frames (returns
`false`); otherwise drops the top frame, `(*stack)[:len(*stack)-1]`,
and returns `true`. -/
def popView (stack : List Frame) : List Frame × Bool :=
  if stack.length ≤ 1 then
    (stack, false)
  else
    (stack.take (stack.length - 1), true)

/-- `switchToBrowsingMode`: a no-op when already Browsing, otherwise sets
the mode back to Browsing.  The logging stack is retained (the clearing
is commented out in the source) and neither stack nor the journal file is
touched. -/
def switchToBrowsingMode (s : AppState) : AppState :=
  match s.currentMode with
  | AppMode.browsing => s
  | AppMode.logging => { s with currentMode := AppMode.browsing }

/-- `switchToLoggingMode`: a no-op when already Logging; otherwise sets
the mode, discards the previous logging stack, and pushes the fresh
"Select Feeling to Log" root view holding the primary emotions. -/
def switchToLoggingMode (primaryEmotions : List Emotion) (s : AppState) : AppState :=
  match s.currentMode with
  | AppMode.logging => s
  | AppMode.browsing =>
    { s with
      currentMode := AppMode.logging,
      loggingNavigationStack :=
        pushView (createEmotionListView "Select Feeling to Log" none primaryEmotions) [] }

/-- `handleBack`: in Logging mode pop the logging stack, and when the pop
is refused (already at the logging root) cancel logging by switching back
to Browsing; in Browsing mode just pop the browsing stack (a no-op at its
root). -/
def handleBack (s : AppState) : AppState :=
  match s.currentMode with
  | AppMode.logging =>
    let r := popView s.loggingNavigationStack
    if r.2 then
      { s with loggingNavigationStack := r.1 }
    else
      switchToBrowsingMode { s with loggingNavigationStack := r.1 }
  | AppMode.browsing =>
    { s with navigationStack := (popView s.navigationStack).1 }

/-- `saveLoggedEmotion`: builds the `LogEntry` from the selected emotion
and the current time (`Notes` empty) and calls `journal.SaveLogEntry`;
the success and error dialogs are presentation only. -/
def saveLoggedEmotion (now : Int) (writeOk : Bool) (emotionToLog : Emotion)
    (s : AppState) : AppState :=
  let entry : LogEntry := ⟨now, emotionToLog.id, emotionToLog.name, ""⟩
  { s with journalFile := (SaveLogEntry entry writeOk s.journalFile).1 }

/-- `handleLogEmotionSelection`: with children, push a deeper logging
view; on a leaf, save the entry and return to Browsing regardless of the
save's outcome. -/
def handleLogEmotionSelection (emotions : List Emotion) (now : Int) (writeOk : Bool)
    (selectedEmotion : Emotion) (s : AppState) : AppState :=
  let children := GetChildrenOf selectedEmotion.id emotions
  if 0 < children.length then
    { s with
      loggingNavigationStack :=
        pushView
          (createEmotionListView ("Log > " ++ selectedEmotion.name ++ " > ...")
            (some selectedEmotion) children)
          s.loggingNavigationStack }
  else
    switchToBrowsingMode (saveLoggedEmotion now writeOk selectedEmotion s)

/-- Pushing a list of frames, one `pushView` at a time, onto the empty
stack. -/
def pushAll (fs : List Frame) : List Frame :=
  fs.foldl (fun st f => pushView f st) []

/-- Iterating `popView`. -/
def popIter : Nat → List Frame → List Frame
  | 0, st => st
  | n + 1, st => (popView (popIter n st)).1

theorem foldl_pushView (fs : List Frame) (acc : List Frame) :
    fs.foldl (fun st f => pushView f st) acc = acc ++ fs := by
  induction fs generalizing acc with
  | nil => simp
  | cons f rest ih =>
    rw [List.foldl_cons, ih]
    simp [pushView]

theorem pushAll_eq (fs : List Frame) : pushAll fs = fs := by
  simpa [pushAll] using foldl_pushView fs []

theorem popIter_take (fs : List Frame) (k : Nat) (hk : k < fs.length) :
    popIter k fs = fs.take (fs.length - k) := by
  induction k with
  | zero => simp [popIter]
  | succ k ih =>
    have hk' : k < fs.length := Nat.lt_of_succ_lt hk
    have hlen : 2 ≤ fs.length - k := by omega
    rw [popIter, ih hk', popView]
    have hlt : fs.length - k ≤ fs.length := by omega
    have hlen2 : (fs.take (fs.length - k)).length = fs.length - k := by
      rw [List.length_take]
      omega
    rw [hlen2]
    have hcond : ¬(fs.length - k ≤ 1) := by omega
    simp only [if_neg hcond, List.take_take]
    have : min (fs.length - k - 1) (fs.length - k) = fs.length - (k + 1) := by omega
    rw [this]

/-- Concrete frames used to evaluate the navigation model. -/
def sampleFrame1 : Frame := ⟨"Primary Emotions", none, [eAnger, eJoy, eSadness]⟩

def sampleFrame2 : Frame := ⟨"Exploring: Joy", some eJoy, [eContentment]⟩

/-- C7: pushing N frames and popping N-1 times returns to the root (the
first-pushed frame); a pop on a stack of one or fewer frames is a no-op
that reports `false`; and popping a non-empty stack never empties it and
never removes the bottom frame. -/
theorem c7_pop_preserves_root :
    (∀ (fs : List Frame) (h : fs ≠ []),
        popIter (fs.length - 1) (pushAll fs) = [fs.head h])
    ∧ (∀ st : List Frame, st.length ≤ 1 → popView st = (st, false))
    ∧ (∀ st : List Frame, st ≠ [] →
        (popView st).1 ≠ [] ∧ (popView st).1.head? = st.head?) := by
  refine ⟨fun fs h => ?_, fun st hle => by simp [popView, hle], fun st hne => ?_⟩
  · rw [pushAll_eq]
    match fs, h with
    | [f], _ => rfl
    | f :: g :: rest, _ =>
      have hlen : 1 ≤ (f :: g :: rest).length - 1 := by simp
      have hlt : (f :: g :: rest).length - 1 < (f :: g :: rest).length := by simp
      rw [popIter_take _ _ hlt]
      have h1 : (f :: g :: rest).length - ((f :: g :: rest).length - 1) = 1 := by omega
      rw [h1]
      rfl
  · match st, hne with
    | f :: rest, _ =>
      by_cases hle : (f :: rest).length ≤ 1
      · have hrest : rest = [] := by
          cases rest with
          | nil => rfl
          | cons a l => simp at hle
        subst hrest
        simp [popView]
      · have hrest : rest ≠ [] := by
          intro hnil
          subst hnil
          simp at hle
        obtain ⟨m, hm⟩ : ∃ m, rest.length = m + 1 :=
          ⟨rest.length - 1, by
            have := List.length_pos.mpr hrest
            omega⟩
        refine ⟨?_, ?_⟩
        · simp [popView, hle, hm]
        · simp [popView, hle, hm, List.take_succ_cons]

/-- Witness for C7 at a two-frame stack. -/
theorem c7_pop_preserves_root_witness :
    popIter 1 (pushAll [sampleFrame1, sampleFrame2]) = [sampleFrame1]
    ∧ popView [sampleFrame1] = ([sampleFrame1], false)
    ∧ (popView [sampleFrame1, sampleFrame2]).1 ≠ []
    ∧ (popView [sampleFrame1, sampleFrame2]).1.head? = some sampleFrame1 :=
  ⟨c7_pop_preserves_root.1 [sampleFrame1, sampleFrame2] (List.cons_ne_nil _ _),
   c7_pop_preserves_root.2.1 [sampleFrame1] (by decide),
   (c7_pop_preserves_root.2.2 [sampleFrame1, sampleFrame2] (List.cons_ne_nil _ _)).1,
   ((c7_pop_preserves_root.2.2 [sampleFrame1, sampleFrame2] (List.cons_ne_nil _ _)).2).trans rfl⟩

/-- C8: entering Logging mode is a no-op when already Logging; from
Browsing it discards the previous logging stack, installs the fresh
one-frame "Select Feeling to Log" stack of primary emotions, and flips
only the mode (so the Browsing stack and the journal are untouched); and
an immediate Back at the Logging root lands in Browsing with the Browsing
stack and the journal exactly as they were — no `LogEntry` was created. -/
theorem c8_enterLogging_fresh_back_cancels :
    (∀ (ps : List Emotion) (s : AppState), s.currentMode = AppMode.logging →
        switchToLoggingMode ps s = s)
    ∧ (∀ (ps : List Emotion) (s : AppState), s.currentMode = AppMode.browsing →
        switchToLoggingMode ps s =
          { s with
            currentMode := AppMode.logging,
            loggingNavigationStack := [⟨"Select Feeling to Log", none, ps⟩] })
    ∧ (∀ (ps : List Emotion) (s : AppState), s.currentMode = AppMode.browsing →
        (handleBack (switchToLoggingMode ps s)).currentMode = AppMode.browsing
        ∧ (handleBack (switchToLoggingMode ps s)).navigationStack = s.navigationStack
        ∧ (handleBack (switchToLoggingMode ps s)).journalFile = s.journalFile) := by
  have h2 : ∀ (ps : List Emotion) (s : AppState), s.currentMode = AppMode.browsing →
      switchToLoggingMode ps s =
        { s with
          currentMode := AppMode.logging,
          loggingNavigationStack := [⟨"Select Feeling to Log", none, ps⟩] } := by
    intro ps s hmode
    simp [switchToLoggingMode, hmode, pushView, createEmotionListView]
  refine ⟨fun ps s hmode => by simp [switchToLoggingMode, hmode], h2, fun ps s hmode => ?_⟩
  rw [h2 ps s hmode]
  simp [handleBack, popView, switchToBrowsingMode]

/-- Witness for C8 at a concrete Browsing state. -/
theorem c8_enterLogging_fresh_back_cancels_witness :
    switchToLoggingMode [eAnger, eJoy, eSadness]
        ⟨AppMode.browsing, [sampleFrame1, sampleFrame2], [], FileContent.missing⟩ =
      ⟨AppMode.logging, [sampleFrame1, sampleFrame2],
        [⟨"Select Feeling to Log", none, [eAnger, eJoy, eSadness]⟩], FileContent.missing⟩
    ∧ (handleBack (switchToLoggingMode [eAnger, eJoy, eSadness]
        ⟨AppMode.browsing, [sampleFrame1, sampleFrame2], [], FileContent.missing⟩)).currentMode =
      AppMode.browsing
    ∧ (handleBack (switchToLoggingMode [eAnger, eJoy, eSadness]
        ⟨AppMode.browsing, [sampleFrame1, sampleFrame2], [], FileContent.missing⟩)).navigationStack =
      [sampleFrame1, sampleFrame2] :=
  ⟨c8_enterLogging_fresh_back_cancels.2.1 [eAnger, eJoy, eSadness]
      ⟨AppMode.browsing, [sampleFrame1, sampleFrame2], [], FileContent.missing⟩ rfl,
   (c8_enterLogging_fresh_back_cancels.2.2 [eAnger, eJoy, eSadness]
      ⟨AppMode.browsing, [sampleFrame1, sampleFrame2], [], FileContent.missing⟩ rfl).1,
   ((c8_enterLogging_fresh_back_cancels.2.2 [eAnger, eJoy, eSadness]
      ⟨AppMode.browsing, [sampleFrame1, sampleFrame2], [], FileContent.missing⟩ rfl).2.1).trans rfl⟩

/-- C1: selecting a leaf emotion in Logging mode appends exactly the one
`LogEntry` built from that emotion and the current time via the journal
store, and — whether the save succeeds or fails — the mode returns to
Browsing with the Browsing stack exactly as it was. -/
theorem c1_leaf_in_logging_saves_and_returns
    (emotions : List Emotion) (now : Int) (writeOk : Bool) (e : Emotion) (s : AppState)
    (hmode : s.currentMode = AppMode.logging)
    (hleaf : GetChildrenOf e.id emotions = []) :
    (handleLogEmotionSelection emotions now writeOk e s).currentMode = AppMode.browsing
    ∧ (handleLogEmotionSelection emotions now writeOk e s).navigationStack =
        s.navigationStack
    ∧ (handleLogEmotionSelection emotions now writeOk e s).journalFile =
        (SaveLogEntry ⟨now, e.id, e.name, ""⟩ writeOk s.journalFile).1
    ∧ (writeOk = true →
        (handleLogEmotionSelection emotions now writeOk e s).journalFile =
          FileContent.json (encodeEntries
            (readEntriesForSave s.journalFile ++ [⟨now, e.id, e.name, ""⟩])))
    ∧ (writeOk = false →
        (handleLogEmotionSelection emotions now writeOk e s).journalFile =
          s.journalFile) := by
  cases writeOk <;>
    simp [handleLogEmotionSelection, hleaf, saveLoggedEmotion, switchToBrowsingMode,
      hmode, SaveLogEntry]

/-- Witness for C1: logging the leaf `contentment` from a concrete
Logging state with a successful write. -/
theorem c1_leaf_in_logging_saves_and_returns_witness :
    (handleLogEmotionSelection [eJoy, eContentment] 42 true eContentment
        ⟨AppMode.logging, [sampleFrame1, sampleFrame2],
          [⟨"Select Feeling to Log", none, [eJoy]⟩], FileContent.missing⟩).currentMode =
      AppMode.browsing
    ∧ (handleLogEmotionSelection [eJoy, eContentment] 42 true eContentment
        ⟨AppMode.logging, [sampleFrame1, sampleFrame2],
          [⟨"Select Feeling to Log", none, [eJoy]⟩], FileContent.missing⟩).navigationStack =
      [sampleFrame1, sampleFrame2]
    ∧ (handleLogEmotionSelection [eJoy, eContentment] 42 true eContentment
        ⟨AppMode.logging, [sampleFrame1, sampleFrame2],
          [⟨"Select Feeling to Log", none, [eJoy]⟩], FileContent.missing⟩).journalFile =
      FileContent.json (encodeEntries [⟨42, "contentment", "Contentment", ""⟩]) :=
  ⟨(c1_leaf_in_logging_saves_and_returns [eJoy, eContentment] 42 true eContentment
      ⟨AppMode.logging, [sampleFrame1, sampleFrame2],
        [⟨"Select Feeling to Log", none, [eJoy]⟩], FileContent.missing⟩ rfl rfl).1,
   ((c1_leaf_in_logging_saves_and_returns [eJoy, eContentment] 42 true eContentment
      ⟨AppMode.logging, [sampleFrame1, sampleFrame2],
        [⟨"Select Feeling to Log", none, [eJoy]⟩], FileContent.missing⟩ rfl rfl).2.1).trans rfl,
   ((c1_leaf_in_logging_saves_and_returns [eJoy, eContentment] 42 true eContentment
      ⟨AppMode.logging, [sampleFrame1, sampleFrame2],
        [⟨"Select Feeling to Log", none, [eJoy]⟩], FileContent.missing⟩ rfl rfl).2.2.2.1 rfl).trans rfl⟩

/-! ### Concurrent `SaveLogEntry` (the `journalMutex` discipline)

Two goroutines each run one `SaveLogEntry` call, split into its phases:
acquire `journalMutex`, read-and-unmarshal the file, append-marshal-write,
release (the deferred unlock).  A thread can acquire the mutex only while
the other is not inside the critical section, which is exactly the
guarantee `sync.Mutex` gives the code.  Disk writes are taken as
succeeding (the claim is about the lost-update race, not I/O failure). -/

/-- The program counter of one in-flight `SaveLogEntry` call. -/
inductive ThreadPhase where
  | idle
  | acquired
  | readDone (entries : List LogEntry)
  | written
  | finished

/-- Whether a phase is inside the mutex-guarded critical section. -/
def inCS (ph : ThreadPhase) : Bool :=
  match ph with
  | ThreadPhase.idle => false
  | ThreadPhase.finished => false
  | _ => true

/-- Whether a phase has already performed its write. -/
def hasWritten (ph : ThreadPhase) : Bool :=
  match ph with
  | ThreadPhase.written => true
  | ThreadPhase.finished => true
  | _ => false

/-- The shared journal file plus both threads' program counters. -/
structure ConcState where
  file : FileContent
  ph1 : ThreadPhase
  ph2 : ThreadPhase

/-- One interleaving step of the two concurrent `SaveLogEntry e1` /
`SaveLogEntry e2` calls.  `acquire` blocks while the other thread is in
the critical section; `read` performs the in-lock read phase of
`SaveLogEntry` (malformed content starts from zero entries); `write`
marshals the appended list and overwrites the file; `release` is the
deferred unlock. -/
inductive SaveStep (e1 e2 : LogEntry) : ConcState → ConcState → Prop where
  | acquire1 (s : ConcState) :
      s.ph1 = ThreadPhase.idle → inCS s.ph2 = false →
      SaveStep e1 e2 s { s with ph1 := ThreadPhase.acquired }
  | read1 (s : ConcState) :
      s.ph1 = ThreadPhase.acquired →
      SaveStep e1 e2 s { s with ph1 := ThreadPhase.readDone (readEntriesForSave s.file) }
  | write1 (s : ConcState) (l : List LogEntry) :
      s.ph1 = ThreadPhase.readDone l →
      SaveStep e1 e2 s
        { s with
          ph1 := ThreadPhase.written,
          file := FileContent.json (encodeEntries (l ++ [e1])) }
  | release1 (s : ConcState) :
      s.ph1 = ThreadPhase.written →
      SaveStep e1 e2 s { s with ph1 := ThreadPhase.finished }
  | acquire2 (s : ConcState) :
      s.ph2 = ThreadPhase.idle → inCS s.ph1 = false →
      SaveStep e1 e2 s { s with ph2 := ThreadPhase.acquired }
  | read2 (s : ConcState) :
      s.ph2 = ThreadPhase.acquired →
      SaveStep e1 e2 s { s with ph2 := ThreadPhase.readDone (readEntriesForSave s.file) }
  | write2 (s : ConcState) (l : List LogEntry) :
      s.ph2 = ThreadPhase.readDone l →
      SaveStep e1 e2 s
        { s with
          ph2 := ThreadPhase.written,
          file := FileContent.json (encodeEntries (l ++ [e2])) }
  | release2 (s : ConcState) :
      s.ph2 = ThreadPhase.written →
      SaveStep e1 e2 s { s with ph2 := ThreadPhase.finished }

/-- The inductive invariant of the interleaved system: the lock gives
mutual exclusion; a thread that has read under the lock holds exactly the
current file's entries; a thread that has written can still find its
entry in the file; and once anyone has written, the file is a marshalled
entry list. -/
def ConcInv (e1 e2 : LogEntry) (s : ConcState) : Prop :=
  ¬(inCS s.ph1 = true ∧ inCS s.ph2 = true)
  ∧ (∀ l, s.ph1 = ThreadPhase.readDone l → l = readEntriesForSave s.file)
  ∧ (∀ l, s.ph2 = ThreadPhase.readDone l → l = readEntriesForSave s.file)
  ∧ (hasWritten s.ph1 = true → e1 ∈ readEntriesForSave s.file)
  ∧ (hasWritten s.ph2 = true → e2 ∈ readEntriesForSave s.file)
  ∧ ((hasWritten s.ph1 = true ∨ hasWritten s.ph2 = true) →
      ∃ l, s.file = FileContent.json (encodeEntries l))

theorem notCS_not_readDone {ph : ThreadPhase} (h : inCS ph = false) (l : List LogEntry) :
    ph ≠ ThreadPhase.readDone l := by
  cases ph <;> simp [inCS] at h ⊢

theorem notCS_written_finished {ph : ThreadPhase} (h : inCS ph = false)
    (hw : hasWritten ph = true) : ph = ThreadPhase.finished := by
  cases ph <;> simp_all [inCS, hasWritten]

theorem concInv_step {e1 e2 : LogEntry} {s s' : ConcState}
    (hinv : ConcInv e1 e2 s) (hstep : SaveStep e1 e2 s s') : ConcInv e1 e2 s' := by
  obtain ⟨hmx, hr1, hr2, hw1, hw2, hjson⟩ := hinv
  cases hstep with
  | acquire1 h1 h2 =>
    refine ⟨fun h => by simp [h2] at h, ?_, hr2, ?_, hw2, ?_⟩
    · intro l hl
      simp at hl
    · intro h
      simp [hasWritten] at h
    · intro h
      rcases h with h | h
      · simp [hasWritten] at h
      · exact hjson (Or.inr h)
  | read1 h1 =>
    have h2 : inCS s.ph2 = false := by
      by_contra hc
      exact hmx ⟨by rw [h1]; rfl, by simpa using hc⟩
    refine ⟨fun h => by simp [h2] at h, ?_, hr2, ?_, hw2, ?_⟩
    · intro l hl
      injection hl with h
      exact h.symm
    · intro h
      simp [hasWritten] at h
    · intro h
      rcases h with h | h
      · simp [hasWritten] at h
      · exact hjson (Or.inr h)
  | write1 l h1 =>
    have h2 : inCS s.ph2 = false := by
      by_contra hc
      exact hmx ⟨by rw [h1]; rfl, by simpa using hc⟩
    have hl : l = readEntriesForSave s.file := hr1 l h1
    refine ⟨fun h => by simp [h2] at h, ?_, ?_, ?_, ?_, ?_⟩
    · intro l' hl'
      simp at hl'
    · intro l' hl'
      exact absurd hl' (notCS_not_readDone h2 l')
    · intro _
      show e1 ∈ readEntriesForSave (FileContent.json (encodeEntries (l ++ [e1])))
      rw [readEntriesForSave_encode]
      exact List.mem_append.mpr (Or.inr (List.mem_singleton.mpr rfl))
    · intro hw
      have he2 : e2 ∈ readEntriesForSave s.file := hw2 hw
      have he2l : e2 ∈ l := by
        rw [hl]
        exact he2
      show e2 ∈ readEntriesForSave (FileContent.json (encodeEntries (l ++ [e1])))
      rw [readEntriesForSave_encode]
      exact List.mem_append.mpr (Or.inl he2l)
    · intro _
      refine ⟨l ++ [e1], ?_⟩
      rfl
  | release1 h1 =>
    refine ⟨fun h => by simp [inCS] at h, ?_, hr2, ?_, hw2, ?_⟩
    · intro l hl
      simp at hl
    · intro _
      exact hw1 (by rw [h1]; rfl)
    · intro h
      refine hjson ?_
      rcases h with h | h
      · exact Or.inl (by rw [h1]; rfl)
      · exact Or.inr h
  | acquire2 h1 h2 =>
    refine ⟨fun h => by simp [h2] at h, hr1, ?_, hw1, ?_, ?_⟩
    · intro l hl
      simp at hl
    · intro h
      simp [hasWritten] at h
    · intro h
      rcases h with h | h
      · exact hjson (Or.inl h)
      · simp [hasWritten] at h
  | read2 h1 =>
    have h2 : inCS s.ph1 = false := by
      by_contra hc
      exact hmx ⟨by simpa using hc, by rw [h1]; rfl⟩
    refine ⟨fun h => by simp [h2] at h, hr1, ?_, hw1, ?_, ?_⟩
    · intro l hl
      injection hl with h
      exact h.symm
    · intro h
      simp [hasWritten] at h
    · intro h
      rcases h with h | h
      · exact hjson (Or.inl h)
      · simp [hasWritten] at h
  | write2 l h1 =>
    have h2 : inCS s.ph1 = false := by
      by_contra hc
      exact hmx ⟨by simpa using hc, by rw [h1]; rfl⟩
    have hl : l = readEntriesForSave s.file := hr2 l h1
    refine ⟨fun h => by simp [h2] at h, ?_, ?_, ?_, ?_, ?_⟩
    · intro l' hl'
      exact absurd hl' (notCS_not_readDone h2 l')
    · intro l' hl'
      simp at hl'
    · intro hw
      have he1 : e1 ∈ readEntriesForSave s.file := hw1 hw
      have he1l : e1 ∈ l := by
        rw [hl]
        exact he1
      show e1 ∈ readEntriesForSave (FileContent.json (encodeEntries (l ++ [e2])))
      rw [readEntriesForSave_encode]
      exact List.mem_append.mpr (Or.inl he1l)
    · intro _
      show e2 ∈ readEntriesForSave (FileContent.json (encodeEntries (l ++ [e2])))
      rw [readEntriesForSave_encode]
      exact List.mem_append.mpr (Or.inr (List.mem_singleton.mpr rfl))
    · intro _
      refine ⟨l ++ [e2], ?_⟩
      rfl
  | release2 h1 =>
    refine ⟨fun h => by simp [inCS] at h, hr1, ?_, hw1, ?_, ?_⟩
    · intro l hl
      simp at hl
    · intro _
      exact hw2 (by rw [h1]; rfl)
    · intro h
      refine hjson ?_
      rcases h with h | h
      · exact Or.inl h
      · exact Or.inr (by rw [h1]; rfl)

theorem concInv_reaches {e1 e2 : LogEntry} {s s' : ConcState}
    (hinv : ConcInv e1 e2 s)
    (hrun : Relation.ReflTransGen (SaveStep e1 e2) s s') : ConcInv e1 e2 s' := by
  induction hrun with
  | refl => exact hinv
  | tail _ hstep ih => exact concInv_step ih hstep

theorem concInv_init (e1 e2 : LogEntry) (file0 : FileContent) :
    ConcInv e1 e2 ⟨file0, ThreadPhase.idle, ThreadPhase.idle⟩ := by
  refine ⟨by simp [inCS], ?_, ?_, ?_, ?_, ?_⟩ <;>
    simp [inCS, hasWritten]

/-- C2: under the `journalMutex` discipline, the two concurrent
`SaveLogEntry` calls with distinct entries are mutually excluded — in no
reachable state are both threads inside the read-to-write critical
section — and neither entry is lost: in every reachable state where both
calls have completed, LoadAll succeeds and its result contains both
entries. -/
theorem c2_concurrent_appends_no_lost_update
    (e1 e2 : LogEntry) (file0 : FileContent) (hne : e1 ≠ e2) :
    (∀ s' : ConcState,
        Relation.ReflTransGen (SaveStep e1 e2)
          ⟨file0, ThreadPhase.idle, ThreadPhase.idle⟩ s' →
        ¬(inCS s'.ph1 = true ∧ inCS s'.ph2 = true))
    ∧ (∀ s' : ConcState,
        Relation.ReflTransGen (SaveStep e1 e2)
          ⟨file0, ThreadPhase.idle, ThreadPhase.idle⟩ s' →
        s'.ph1 = ThreadPhase.finished → s'.ph2 = ThreadPhase.finished →
        ∃ l, loadJournalEntries s'.file = Except.ok l ∧ e1 ∈ l ∧ e2 ∈ l) := by
  refine ⟨fun s' hrun => (concInv_reaches (concInv_init e1 e2 file0) hrun).1,
          fun s' hrun h1 h2 => ?_⟩
  obtain ⟨_, _, _, hw1, hw2, hjson⟩ := concInv_reaches (concInv_init e1 e2 file0) hrun
  obtain ⟨l, hl⟩ := hjson (Or.inl (by rw [h1]; rfl))
  refine ⟨l, ?_, ?_, ?_⟩
  · rw [hl]
    simp [loadJournalEntries, decodeEntries_encodeEntries]
  · have hm := hw1 (by rw [h1]; rfl)
    rw [hl, readEntriesForSave_encode] at hm
    exact hm
  · have hm := hw2 (by rw [h2]; rfl)
    rw [hl, readEntriesForSave_encode] at hm
    exact hm

/-- Witness for C2: a concrete complete interleaving — thread 1 runs its
whole critical section, then thread 2 — after which LoadAll holds both
distinct sample entries. -/
theorem c2_concurrent_appends_no_lost_update_witness :
    ∃ l, loadJournalEntries
        (FileContent.json (encodeEntries [sampleEntry1, sampleEntry2])) = Except.ok l
      ∧ sampleEntry1 ∈ l ∧ sampleEntry2 ∈ l := by
  have st1 : SaveStep sampleEntry1 sampleEntry2
      ⟨FileContent.missing, ThreadPhase.idle, ThreadPhase.idle⟩
      ⟨FileContent.missing, ThreadPhase.acquired, ThreadPhase.idle⟩ :=
    SaveStep.acquire1 _ rfl rfl
  have st2 : SaveStep sampleEntry1 sampleEntry2
      ⟨FileContent.missing, ThreadPhase.acquired, ThreadPhase.idle⟩
      ⟨FileContent.missing, ThreadPhase.readDone [], ThreadPhase.idle⟩ :=
    SaveStep.read1 _ rfl
  have st3 : SaveStep sampleEntry1 sampleEntry2
      ⟨FileContent.missing, ThreadPhase.readDone [], ThreadPhase.idle⟩
      ⟨FileContent.json (encodeEntries [sampleEntry1]), ThreadPhase.written,
        ThreadPhase.idle⟩ :=
    SaveStep.write1 _ [] rfl
  have st4 : SaveStep sampleEntry1 sampleEntry2
      ⟨FileContent.json (encodeEntries [sampleEntry1]), ThreadPhase.written,
        ThreadPhase.idle⟩
      ⟨FileContent.json (encodeEntries [sampleEntry1]), ThreadPhase.finished,
        ThreadPhase.idle⟩ :=
    SaveStep.release1 _ rfl
  have st5 : SaveStep sampleEntry1 sampleEntry2
      ⟨FileContent.json (encodeEntries [sampleEntry1]), ThreadPhase.finished,
        ThreadPhase.idle⟩
      ⟨FileContent.json (encodeEntries [sampleEntry1]), ThreadPhase.finished,
        ThreadPhase.acquired⟩ :=
    SaveStep.acquire2 _ rfl rfl
  have st6 : SaveStep sampleEntry1 sampleEntry2
      ⟨FileContent.json (encodeEntries [sampleEntry1]), ThreadPhase.finished,
        ThreadPhase.acquired⟩
      ⟨FileContent.json (encodeEntries [sampleEntry1]), ThreadPhase.finished,
        ThreadPhase.readDone [sampleEntry1]⟩ :=
    SaveStep.read2 _ rfl
  have st7 : SaveStep sampleEntry1 sampleEntry2
      ⟨FileContent.json (encodeEntries [sampleEntry1]), ThreadPhase.finished,
        ThreadPhase.readDone [sampleEntry1]⟩
      ⟨FileContent.json (encodeEntries [sampleEntry1, sampleEntry2]),
        ThreadPhase.finished, ThreadPhase.written⟩ :=
    SaveStep.write2 _ [sampleEntry1] rfl
  have st8 : SaveStep sampleEntry1 sampleEntry2
      ⟨FileContent.json (encodeEntries [sampleEntry1, sampleEntry2]),
        ThreadPhase.finished, ThreadPhase.written⟩
      ⟨FileContent.json (encodeEntries [sampleEntry1, sampleEntry2]),
        ThreadPhase.finished, ThreadPhase.finished⟩ :=
    SaveStep.release2 _ rfl
  have hrun : Relation.ReflTransGen (SaveStep sampleEntry1 sampleEntry2)
      ⟨FileContent.missing, ThreadPhase.idle, ThreadPhase.idle⟩
      ⟨FileContent.json (encodeEntries [sampleEntry1, sampleEntry2]),
        ThreadPhase.finished, ThreadPhase.finished⟩ :=
    ((((((((Relation.ReflTransGen.refl).tail st1).tail st2).tail st3).tail
        st4).tail st5).tail st6).tail st7).tail st8
  exact (c2_concurrent_appends_no_lost_update sampleEntry1 sampleEntry2
      FileContent.missing (by decide)).2 _ hrun rfl rfl

end EmotionExplorer
